import Mathlib

/-!
# Shallow embedding of the roboplc core (policy deque, channels, hub,
interval, controller state, process-tree kill, data buffer)

Definitions are translated from the Rust sources under `src/`:
`pdeque.rs`, `pchannel.rs`, `hub.rs`, `buf.rs`, `time.rs`,
`controller.rs`, `thread_rt.rs`.  Machine integers that matter
(`i8` state codes) are modelled as `Int`; monotonic time and durations
as `Nat`.
-/

namespace Roboplc

/-- `DeliveryPolicy` enumeration from the external `rtsc::data_policy`
module, as matched exhaustively by `pdeque.rs` (`Always | Single` and
`Optional | SingleOptional` arms). -/
inductive DeliveryPolicy where
  | Always
  | Optional
  | Single
  | SingleOptional
  deriving DecidableEq, Repr

/-- Modelled from the spec: classification helper
`is_delivery_policy_single` of the external `DataDeliveryPolicy` trait
(`rtsc` crate, not under `src/`): the Single class is "at most one
in-flight value of this kind at a time", i.e. `Single` and
`SingleOptional`. -/
def DeliveryPolicy.isSingleClass : DeliveryPolicy → Bool
  | .Single => true
  | .SingleOptional => true
  | _ => false

/-- Modelled from the spec: classification helper
`is_delivery_policy_optional` of the external `DataDeliveryPolicy`
trait: the Optional class ("skip silently if full") is `Optional` and
`SingleOptional`. -/
def DeliveryPolicy.isOptionalClass : DeliveryPolicy → Bool
  | .Optional => true
  | .SingleOptional => true
  | _ => false

/-- A message value together with the four capabilities the
`DataDeliveryPolicy` trait supplies (`delivery_policy()`, `priority()`,
`eq_kind` as kind identity, `is_expired()`); `payload` distinguishes
values of the same kind. -/
structure Item where
  kind : Nat
  policy : DeliveryPolicy
  priority : Nat
  expired : Bool
  payload : Nat
  deriving DecidableEq, Repr

/-- `eq_kind` relation of the trait: default "same variant", modelled as
equality of the `kind` tag. -/
def Item.eqKind (a b : Item) : Bool := a.kind == b.kind

/-- `Deque<T>` from `pdeque.rs`: `data` (front of the `VecDeque` is the
list head), `capacity`, `ordered` flag. -/
structure Deque where
  data : List Item
  capacity : Nat
  ordered : Bool
  deriving Repr

/-- `Deque::bounded(capacity)`. -/
def Deque.bounded (capacity : Nat) : Deque :=
  { data := [], capacity := capacity, ordered := false }

/-- `Deque::set_ordering`. -/
def Deque.setOrdering (d : Deque) (v : Bool) : Deque := { d with ordered := v }

/-- `TryPushOutput<T>` from `pdeque.rs`. -/
structure TryPushOutput where
  pushed : Bool
  value : Option Item
  deriving DecidableEq, Repr

/-- `sort_by_priority` from `pdeque.rs`: a stable sort of the whole
deque by ascending priority (Rust's `slice::sort_by` is stable;
`List.insertionSort` is the corresponding stable functional sort). -/
def sortByPriority (l : List Item) : List Item :=
  l.insertionSort (fun a b => a.priority ≤ b.priority)

/-- An entry the full-queue path of `try_push` may evict: expired or
Optional-class (`d.is_expired() || d.is_delivery_policy_optional()`). -/
def evictable (d : Item) : Bool := d.expired || d.policy.isOptionalClass

/-- The `retain` with the `entry_removed` flag inside `Deque::try_push`:
removes the first (oldest) evictable entry, keeping everything else. -/
def removeFirstEvictable : List Item → List Item
  | [] => []
  | d :: rest =>
    if evictable d then rest
    else d :: removeFirstEvictable rest

/-- The Single-class coalescing step of `Deque::try_push`:
`self.data.retain(|d| !d.eq_kind(&value) && !d.is_expired())` applied
when the incoming value has a Single-class policy. -/
def coalesce (dq : Deque) (value : Item) : Deque :=
  if value.policy.isSingleClass then
    { dq with data := dq.data.filter (fun d => !(d.eqKind value) && !d.expired) }
  else dq

/-- The `push!` macro of `Deque::try_push`: `push_back`, re-sort when
ordered, report pushed. -/
def Deque.pushBack (dq : Deque) (value : Item) : Deque × TryPushOutput :=
  let data := dq.data ++ [value]
  let data := if dq.ordered then sortByPriority data else data
  ({ dq with data := data }, { pushed := true, value := none })

/-- `Deque::try_push` from `pdeque.rs`, translated arm by arm. -/
def Deque.tryPush (dq : Deque) (value : Item) : Deque × TryPushOutput :=
  if value.expired then
    (dq, { pushed := true, value := none })
  else
    let dq := coalesce dq value
    if dq.data.length < dq.capacity then
      dq.pushBack value
    else
      match value.policy with
      | .Always | .Single =>
        let dq2 := { dq with data := removeFirstEvictable dq.data }
        if dq2.data.length < dq2.capacity then
          dq2.pushBack value
        else
          (dq2, { pushed := false, value := some value })
      | .Optional | .SingleOptional =>
        (dq, { pushed := false, value := none })

/-- The pop-front loop of `Deque::get`, on the underlying list. -/
def getLoop : List Item → Option Item × List Item
  | [] => (none, [])
  | v :: rest =>
    if v.expired then getLoop rest
    else (some v, rest)

/-- `Deque::get` from `pdeque.rs`: pop from the front, skipping (and
dropping) expired values. -/
def Deque.get (dq : Deque) : Option Item × Deque :=
  let (v, rest) := getLoop dq.data
  (v, { dq with data := rest })

/-- `Deque::len`. -/
def Deque.len (dq : Deque) : Nat := dq.data.length

-- sanity checks against the source semantics
example :
    ((Deque.bounded 2).tryPush ⟨0, .Always, 100, false, 1⟩).fst.data =
      [⟨0, .Always, 100, false, 1⟩] := by decide

example :
    -- full of Always values, incoming Optional is consumed silently
    (({ data := [⟨0, .Always, 100, false, 1⟩], capacity := 1,
        ordered := false } : Deque).tryPush ⟨1, .Optional, 100, false, 2⟩).snd =
      { pushed := false, value := none } := by decide

example :
    -- full, oldest entry Optional: evicted, new Always value stored
    (({ data := [⟨1, .Optional, 100, false, 9⟩], capacity := 1,
        ordered := false } : Deque).tryPush ⟨0, .Always, 100, false, 1⟩).fst.data =
      [⟨0, .Always, 100, false, 1⟩] := by decide

/-! ## Synchronous policy channel (`pchannel.rs`) -/

/-- Error kinds of `pchannel.rs` operations. -/
inductive ChannelError where
  | ChannelClosed
  | ChannelSkipped
  | ChannelFull
  | ChannelEmpty
  deriving DecidableEq, Repr

/-- `PolicyChannel<T>` of `pchannel.rs`: the guarded state behind the
mutex — the policy deque plus live sender/receiver counts. -/
structure PolicyChannel where
  queue : Deque
  senders : Nat
  receivers : Nat
  deriving Repr

/-- `ChannelInner::try_recv`: take a deliverable value from the queue,
else report closed when no senders remain, else empty. -/
def tryRecv (pc : PolicyChannel) : Except ChannelError Item × PolicyChannel :=
  match Deque.get pc.queue with
  | (some val, q) => (Except.ok val, { pc with queue := q })
  | (none, q) =>
    if pc.senders = 0 then (Except.error .ChannelClosed, { pc with queue := q })
    else (Except.error .ChannelEmpty, { pc with queue := q })

/-- Outcome of one quiescent evaluation of the `ChannelInner::recv`
loop: a value, closure, or blocking on `data_available` (the loop body
waits when the queue yields nothing and senders remain). -/
inductive RecvOutcome where
  | value (v : Item)
  | closed
  | blocks
  deriving DecidableEq, Repr

/-- `ChannelInner::recv`, evaluated with no concurrent state change:
the first loop iteration either returns a value, returns ChannelClosed,
or waits on the condvar (`blocks`). -/
def recvStep (pc : PolicyChannel) : RecvOutcome :=
  match (Deque.get pc.queue).fst with
  | some val => .value val
  | none => if pc.senders = 0 then .closed else .blocks

/-- The two condition variables of `ChannelInner`. -/
inductive Condvar where
  | dataAvailable
  | spaceAvailable
  deriving DecidableEq, Repr

/-- `impl Drop for Sender` (`pchannel.rs`): decrement the sender count
and, when it reaches zero, `notify_all` on `data_available`; returns the
new state and the list of condvars that received a `notify_all`. -/
def senderDrop (pc : PolicyChannel) : PolicyChannel × List Condvar :=
  let pc := { pc with senders := pc.senders - 1 }
  if pc.senders = 0 then (pc, [.dataAvailable]) else (pc, [])

/-- `impl Drop for Receiver` (`pchannel.rs`): decrement the receiver
count and, when it reaches zero, `notify_all` on `data_available`;
returns the new state and the list of condvars that received a
`notify_all`. -/
def receiverDrop (pc : PolicyChannel) : PolicyChannel × List Condvar :=
  let pc := { pc with receivers := pc.receivers - 1 }
  if pc.receivers = 0 then (pc, [.dataAvailable]) else (pc, [])

/-- The condvar a sender blocked inside `ChannelInner::send` waits on
(`self.space_available.wait(&mut pc)`). -/
def sendWaitCondvar : Condvar := .spaceAvailable

/-! ## Hub (`hub.rs`) -/

/-- `Subscription<T>` of `hub.rs`, with the predicate as a Bool-valued
condition on messages. -/
structure Subscription where
  name : String
  priority : Nat
  condition : Item → Bool

/-- One delivery performed by `Hub::send`: the receiving subscription
and whether the payload delivered to it was a clone (`true`) or the
moved original (`false`). -/
structure Delivery where
  sub : Subscription
  cloned : Bool

/-- `Hub::send` from `hub.rs`, as the list of deliveries it performs:
filter the subscription list by the condition, return early when empty,
send a clone to every target but the last (re-checking the condition as
the source does) and move the original to the last target. -/
def hubSend (subs : List Subscription) (message : Item) : List Delivery :=
  let targets := subs.filter (fun c => c.condition message)
  if targets.isEmpty then []
  else
    (targets.take (targets.length - 1)).filterMap
      (fun sub => if sub.condition message then some ⟨sub, true⟩ else none)
    ++ (match targets.getLast? with
        | some sub => if sub.condition message then [⟨sub, false⟩] else []
        | none => [])

/-! ## Interval (`time.rs`) -/

/-- `MissedTickBehavior` from `time.rs`. -/
inductive MissedTickBehavior where
  | Burst
  | Delay
  | Skip
  deriving DecidableEq, Repr

/-- `Interval` from `time.rs`; monotonic instants and the period are
modelled as `Nat`. -/
structure Interval where
  next_tick : Option Nat
  period : Nat
  missing_tick_behavior : MissedTickBehavior
  deriving Repr

/-- The `Skip` catch-up loop of `Interval::tick`:
`while next_tick <= now { next_tick += period }`.  (With `period = 0`
the Rust loop never terminates; that case is frozen at `next_tick`.) -/
def skipAdvance (next_tick now period : Nat) : Nat :=
  if next_tick ≤ now then
    if _h : 0 < period then skipAdvance (next_tick + period) now period
    else next_tick
  else next_tick
termination_by now + 1 - next_tick
decreasing_by omega

/-- Result of `Interval::tick`: the return value, the updated interval,
and how long the call sleeps (`Less` arm only). -/
structure TickResult where
  ret : Bool
  state : Interval
  slept : Nat
  deriving Repr

/-- `Interval::tick` from `time.rs`, with `now` passed explicitly:
first call arms `next_tick = now + period`; then the three-way compare
of `now` against `next_tick` (`Less`: advance then sleep to the old
deadline; `Equal`: just return true; `Greater`: missed-tick policy,
return false). -/
def Interval.tick (iv : Interval) (now : Nat) : TickResult :=
  match iv.next_tick with
  | some next_tick =>
    if now < next_tick then
      { ret := true, state := { iv with next_tick := some (next_tick + iv.period) },
        slept := next_tick - now }
    else if now = next_tick then
      { ret := true, state := iv, slept := 0 }
    else
      match iv.missing_tick_behavior with
      | .Burst =>
        { ret := false, state := { iv with next_tick := some (next_tick + iv.period) },
          slept := 0 }
      | .Delay =>
        { ret := false, state := { iv with next_tick := some (now + iv.period) },
          slept := 0 }
      | .Skip =>
        { ret := false,
          state := { iv with next_tick := some (skipAdvance next_tick now iv.period) },
          slept := 0 }
  | none =>
    { ret := true, state := { iv with next_tick := some (now + iv.period) }, slept := 0 }

/-! ## Controller state (`controller.rs`) -/

/-- `ControllerStateKind` from `controller.rs`. -/
inductive ControllerStateKind where
  | Starting
  | Active
  | Running
  | Stopping
  | Stopped
  | Unknown
  deriving DecidableEq, Repr

/-- The `#[repr(i8)]` discriminants of `ControllerStateKind`
(`Starting = 0, Active = 1, Running = 2, Stopping = -1, Stopped = -100,
Unknown = -128`), i.e. what `State::set` stores via `state as i8`. -/
def ControllerStateKind.code : ControllerStateKind → Int
  | .Starting => 0
  | .Active => 1
  | .Running => 2
  | .Stopping => -1
  | .Stopped => -100
  | .Unknown => -128

/-- `impl From<i8> for ControllerStateKind` from `controller.rs`,
arm by arm (`0, 1, 2, -100`, wildcard to `Unknown`). -/
def controllerStateKindFrom (v : Int) : ControllerStateKind :=
  if v = 0 then .Starting
  else if v = 1 then .Active
  else if v = 2 then .Running
  else if v = -100 then .Stopped
  else .Unknown

/-- `State::set` followed by `State::get` on the atomic `i8` beacon:
store the discriminant, load it back, decode via `From<i8>`. -/
def stateSetGet (k : ControllerStateKind) : ControllerStateKind :=
  controllerStateKindFrom k.code

/-! ## Process-tree termination (`thread_rt.rs`) -/

/-- POSIX signals used by `kill_pstree`. -/
inductive Signal where
  | SIGTERM
  | SIGKILL
  deriving DecidableEq, Repr

/-- `kill_pstree` from `thread_rt.rs`, as the sequence of signals its
`kill_process_tree` passes send to the tree: with a term-kill interval,
a first pass with `Signal::SIGTERM`, the sleep, then the final pass —
which the source again invokes with `Signal::SIGTERM`; without an
interval, the single final pass. -/
def killPstree (term_kill_interval : Option Nat) : List Signal :=
  (match term_kill_interval with
   | some _ => [Signal.SIGTERM]
   | none => [])
  ++ [Signal.SIGTERM]

/-! ## Data buffer (`buf.rs`) -/

/-- `DataBuffer<T>` from `buf.rs` (front of the `VecDeque` is the list
head); elements are opaque. -/
structure DataBuffer (T : Type) where
  data : List T
  capacity : Nat

/-- `DataBuffer::try_push`: hand the value back when at capacity, else
append and return `none`. -/
def DataBuffer.tryPush {T : Type} (buf : DataBuffer T) (value : T) :
    Option T × DataBuffer T :=
  if buf.capacity ≤ buf.data.length then (some value, buf)
  else (none, { buf with data := buf.data ++ [value] })

/-- The `while buf.len() >= capacity { pop_front; res = false }` loop of
`DataBuffer::force_push`, returning the drained list and whether any
element was removed. -/
def forcePushLoop {T : Type} (capacity : Nat) : List T → List T × Bool
  | [] => ([], false)
  | x :: xs =>
    if capacity ≤ (x :: xs).length then ((forcePushLoop capacity xs).fst, true)
    else (x :: xs, false)

/-- `DataBuffer::force_push`: pop from the front while at capacity, then
append; returns `true` iff nothing was removed. -/
def DataBuffer.forcePush {T : Type} (buf : DataBuffer T) (value : T) :
    Bool × DataBuffer T :=
  let (rest, evicted) := forcePushLoop buf.capacity buf.data
  (!evicted, { buf with data := rest ++ [value] })

/-! ## Derived helpers used in the statements -/

/-- Push a whole list of values in order (no intervening reader),
keeping the deque and dropping the outputs. -/
def pushAll (dq : Deque) (vs : List Item) : Deque :=
  vs.foldl (fun d v => (d.tryPush v).fst) dq

/-- Number of enqueued elements of a given kind. -/
def countKind (l : List Item) (k : Nat) : Nat :=
  l.countP (fun d => d.kind == k)

/-- Pop `n` values from a deque via `Deque::get`, collecting them. -/
def getN : Nat → Deque → List Item
  | 0, _ => []
  | n + 1, dq =>
    match dq.get with
    | (some v, dq) => v :: getN n dq
    | (none, _) => []

/-! ## Theorems -/

/-- C3: with a term-kill interval set, `kill_pstree` sends SIGTERM to
the tree, waits, and then signals the re-collected tree again — but the
final pass also uses SIGTERM: no SIGKILL is ever sent, contradicting
the claim (and the function's own doc comment) that the final pass uses
SIGKILL. -/
theorem killPstree_final_pass_is_sigterm (d : Nat) :
    killPstree (some d) = [Signal.SIGTERM, Signal.SIGTERM] ∧
    Signal.SIGKILL ∉ killPstree (some d) := by
  refine ⟨rfl, ?_⟩
  simp [killPstree]

/-- C6: the `set`/`get` round-trip on the atomic state beacon: the
kinds Starting, Active, Running and Stopped decode back to themselves,
but `Stopping` (stored as `-1`) decodes to `Unknown`, because the
`From<i8>` implementation has no `-1` arm — so after `terminate()` the
state read back is `Unknown`, not `Stopping`. -/
theorem stateSetGet_stopping_lost :
    stateSetGet .Starting = .Starting ∧
    stateSetGet .Active = .Active ∧
    stateSetGet .Running = .Running ∧
    stateSetGet .Stopped = .Stopped ∧
    stateSetGet .Stopping = .Unknown ∧
    ControllerStateKind.Unknown ≠ .Stopping := by
  decide

/-- C5: dropping the last receiver notifies `notify_all` only on the
`data_available` condvar; the `space_available` condvar — which a
sender blocked inside `send` waits on — is not notified, contradicting
the claim that both condvars are notified so a blocked sender observes
closure. -/
theorem receiverDrop_does_not_notify_space :
    (receiverDrop { queue := Deque.bounded 1, senders := 1, receivers := 1 }).snd =
      [Condvar.dataAvailable] ∧
    sendWaitCondvar ∉
      (receiverDrop { queue := Deque.bounded 1, senders := 1, receivers := 1 }).snd ∧
    (senderDrop { queue := Deque.bounded 1, senders := 1, receivers := 1 }).snd =
      [Condvar.dataAvailable] := by
  refine ⟨rfl, ?_, rfl⟩
  simp [receiverDrop, sendWaitCondvar, Deque.bounded]

lemma forcePushLoop_of_lt {T : Type} {cap : Nat} {l : List T} (h : l.length < cap) :
    forcePushLoop cap l = (l, false) := by
  cases l with
  | nil => rfl
  | cons x xs =>
    simp only [forcePushLoop, if_neg (by omega : ¬cap ≤ (x :: xs).length)]

lemma forcePushLoop_length {T : Type} (cap : Nat) (hc : 0 < cap) (l : List T) :
    (forcePushLoop cap l).fst.length < cap := by
  induction l with
  | nil => simpa [forcePushLoop]
  | cons x xs ih =>
    simp only [forcePushLoop, List.length_cons]
    split
    · exact ih
    · next h => simp only [List.length_cons]; omega

lemma forcePushLoop_flag {T : Type} (cap : Nat) (hc : 0 < cap) (l : List T) :
    (forcePushLoop cap l).snd = decide (cap ≤ l.length) := by
  cases l with
  | nil =>
    simp only [forcePushLoop, List.length_nil]
    have : ¬cap ≤ 0 := by omega
    simp [this]
  | cons x xs =>
    simp only [forcePushLoop, List.length_cons]
    split
    · next h => simp [h]
    · next h => simp [h]

/-- C10: the data buffer keeps `length ≤ capacity` (capacity positive
by construction): `try_push` on a full buffer hands the value back and
changes nothing, otherwise appends it; `force_push` always stores the
value — evicting from the front when full — and returns `true` exactly
when no element was evicted. -/
theorem dataBuffer_ops {T : Type} (buf : DataBuffer T) (v : T)
    (hcap : 0 < buf.capacity) (hlen : buf.data.length ≤ buf.capacity) :
    ((buf.tryPush v).snd.data.length ≤ buf.capacity) ∧
    (buf.data.length = buf.capacity → buf.tryPush v = (some v, buf)) ∧
    (buf.data.length < buf.capacity →
      buf.tryPush v = (none, { buf with data := buf.data ++ [v] })) ∧
    ((buf.forcePush v).snd.data.length ≤ buf.capacity) ∧
    ((buf.forcePush v).snd.data.getLast? = some v) ∧
    (buf.data.length = buf.capacity →
      (buf.forcePush v).snd.data = buf.data.tail ++ [v]) ∧
    ((buf.forcePush v).fst = true ↔ buf.data.length < buf.capacity) := by
  refine ⟨?_, ?_, ?_, ?_, ?_, ?_, ?_⟩
  · by_cases h : buf.capacity ≤ buf.data.length
    · simp only [DataBuffer.tryPush, if_pos h]
      exact hlen
    · simp only [DataBuffer.tryPush, if_neg h]
      simp only [List.length_append, List.length_singleton]
      omega
  · intro h
    simp [DataBuffer.tryPush, h]
  · intro h
    simp only [DataBuffer.tryPush, if_neg (by omega : ¬buf.capacity ≤ buf.data.length)]
  · have := forcePushLoop_length buf.capacity hcap buf.data
    simp only [DataBuffer.forcePush, List.length_append, List.length_singleton]
    omega
  · simp [DataBuffer.forcePush]
  · intro h
    cases hd : buf.data with
    | nil =>
      rw [hd] at h
      simp at h
      omega
    | cons x xs =>
      have hx : xs.length + 1 = buf.capacity := by
        rw [hd] at h
        simpa using h
      have hxs : xs.length < buf.capacity := by omega
      have hc2 : buf.capacity ≤ (x :: xs).length := by
        simp only [List.length_cons]
        omega
      simp only [DataBuffer.forcePush, hd, forcePushLoop, if_pos hc2,
        forcePushLoop_of_lt hxs, List.tail_cons]
  · simp only [DataBuffer.forcePush, forcePushLoop_flag buf.capacity hcap buf.data]
    simp only [Bool.not_eq_eq_eq_not, Bool.not_true, decide_eq_false_iff_not, not_le]

/-- Witness for `dataBuffer_ops` at a concrete full one-slot buffer. -/
theorem dataBuffer_ops_witness :
    let buf : DataBuffer Nat := { data := [7], capacity := 1 }
    buf.tryPush 9 = (some 9, buf) ∧ (buf.forcePush 9).snd.data = [9] := by
  have h := dataBuffer_ops ({ data := [7], capacity := 1 } : DataBuffer Nat) 9
    (by decide) (by decide)
  refine ⟨h.2.1 rfl, ?_⟩
  have h2 := h.2.2.2.2.2.1 rfl
  simpa using h2

lemma skipAdvance_spec : ∀ (next_tick now period : Nat), 0 < period → next_tick ≤ now →
    now < skipAdvance next_tick now period ∧
    skipAdvance next_tick now period ≤ now + period ∧
    ∃ k, skipAdvance next_tick now period = next_tick + k * period := by
  intro next_tick now period
  induction next_tick, now, period using skipAdvance.induct with
  | case1 next_tick now period h1 h2 ih =>
    intro _ _
    rw [skipAdvance, if_pos h1, dif_pos h2]
    by_cases hc : next_tick + period ≤ now
    · obtain ⟨ha, hb, k, hk⟩ := ih h2 hc
      exact ⟨ha, hb, k + 1, by rw [hk]; ring⟩
    · rw [skipAdvance, if_neg hc]
      exact ⟨by omega, by omega, 1, by ring⟩
  | case2 next_tick now period h1 h2 =>
    intro hp _
    exact absurd hp h2
  | case3 next_tick now period h1 =>
    intro _ h
    exact absurd h h1

/-- C4 counterexample: when `now` equals the recorded deadline,
`Interval::tick` returns true but leaves the deadline where it was —
it is not advanced by the period (here deadline 10, period 5: the
deadline stays 10 instead of becoming 15). -/
theorem interval_tick_equal_counterexample :
    (({ next_tick := some 10, period := 5, missing_tick_behavior := .Burst } :
        Interval).tick 10).ret = true ∧
    (({ next_tick := some 10, period := 5, missing_tick_behavior := .Burst } :
        Interval).tick 10).state.next_tick = some 10 ∧
    (({ next_tick := some 10, period := 5, missing_tick_behavior := .Burst } :
        Interval).tick 10).state.next_tick ≠ some (10 + 5) := by
  decide

/-- C4 (amended): `tick` on the first-ever call arms `deadline = now +
period` and returns true; if `now < deadline` it advances the deadline
by the period, sleeps until the old deadline and returns true; if
`now = deadline` it returns true **leaving the deadline unchanged**;
if `now > deadline` it returns false and applies the missed-tick
policy — Burst advances by one period, Delay sets `now + period`, Skip
(with a positive period) advances by whole periods to the first instant
strictly greater than `now`. -/
theorem interval_tick_amended (iv : Interval) (now : Nat) :
    (iv.next_tick = none →
      iv.tick now =
        { ret := true, state := { iv with next_tick := some (now + iv.period) },
          slept := 0 }) ∧
    (∀ d, iv.next_tick = some d →
      (now < d →
        iv.tick now =
          { ret := true, state := { iv with next_tick := some (d + iv.period) },
            slept := d - now }) ∧
      (now = d → iv.tick now = { ret := true, state := iv, slept := 0 }) ∧
      (d < now →
        (iv.tick now).ret = false ∧
        (iv.missing_tick_behavior = .Burst →
          (iv.tick now).state.next_tick = some (d + iv.period)) ∧
        (iv.missing_tick_behavior = .Delay →
          (iv.tick now).state.next_tick = some (now + iv.period)) ∧
        (iv.missing_tick_behavior = .Skip → 0 < iv.period →
          ∃ t, (iv.tick now).state.next_tick = some t ∧
            now < t ∧ t ≤ now + iv.period ∧ ∃ k, t = d + k * iv.period))) := by
  constructor
  · intro h
    simp [Interval.tick, h]
  · intro d hd
    refine ⟨?_, ?_, ?_⟩
    · intro hlt
      simp [Interval.tick, hd, hlt]
    · intro heq
      simp [Interval.tick, hd, heq]
    · intro hgt
      have h1 : ¬now < d := by omega
      have h2 : ¬now = d := by omega
      refine ⟨?_, ?_, ?_, ?_⟩
      · cases hb : iv.missing_tick_behavior <;>
          simp [Interval.tick, hd, h1, h2, hb]
      · intro hb
        simp [Interval.tick, hd, h1, h2, hb]
      · intro hb
        simp [Interval.tick, hd, h1, h2, hb]
      · intro hb hp
        obtain ⟨ha, hble, k, hk⟩ := skipAdvance_spec d now iv.period hp (by omega)
        exact ⟨skipAdvance d now iv.period,
          by simp [Interval.tick, hd, h1, h2, hb], ha, hble, k, hk⟩

/-- Witness for `interval_tick_amended` at a concrete missed Skip
tick: deadline 10, period 3, now 11 — tick returns false and the new
deadline is the first multiple-of-3 advance past 11. -/
theorem interval_tick_amended_witness :
    (({ next_tick := some 10, period := 3, missing_tick_behavior := .Skip } :
        Interval).tick 11).ret = false ∧
    ∃ t, (({ next_tick := some 10, period := 3, missing_tick_behavior := .Skip } :
        Interval).tick 11).state.next_tick = some t ∧
      11 < t ∧ t ≤ 11 + 3 ∧ ∃ k, t = 10 + k * 3 := by
  have h := (interval_tick_amended
    { next_tick := some 10, period := 3, missing_tick_behavior := .Skip } 11).2 10 rfl
  have h2 := h.2.2 (by omega)
  exact ⟨h2.1, h2.2.2.2 rfl (by decide)⟩

lemma coalesce_capacity (dq : Deque) (v : Item) :
    (coalesce dq v).capacity = dq.capacity := by
  unfold coalesce
  split <;> rfl

lemma coalesce_ordered (dq : Deque) (v : Item) :
    (coalesce dq v).ordered = dq.ordered := by
  unfold coalesce
  split <;> rfl

lemma removeFirstEvictable_of_none {l : List Item}
    (h : ∀ x ∈ l, evictable x = false) : removeFirstEvictable l = l := by
  induction l with
  | nil => rfl
  | cons d rest ih =>
    have hd : evictable d = false := h d (by simp)
    simp only [removeFirstEvictable, hd, Bool.false_eq_true, if_false]
    rw [ih fun x hx => h x (by simp [hx])]

lemma removeFirstEvictable_decomp {l : List Item}
    (h : ∃ e ∈ l, evictable e = true) :
    ∃ pre e post, l = pre ++ e :: post ∧ evictable e = true ∧
      (∀ x ∈ pre, evictable x = false) ∧
      removeFirstEvictable l = pre ++ post := by
  induction l with
  | nil => simp at h
  | cons d rest ih =>
    by_cases hd : evictable d = true
    · exact ⟨[], d, rest, rfl, hd, by simp, by simp [removeFirstEvictable, hd]⟩
    · have hrest : ∃ e ∈ rest, evictable e = true := by
        obtain ⟨e, he, hev⟩ := h
        rcases List.mem_cons.mp he with rfl | he'
        · exact absurd hev hd
        · exact ⟨e, he', hev⟩
      obtain ⟨pre, e, post, hdec, hev, hpre, hrem⟩ := ih hrest
      refine ⟨d :: pre, e, post, by simp [hdec], hev, ?_, ?_⟩
      · intro x hx
        rcases List.mem_cons.mp hx with rfl | hx'
        · exact Bool.eq_false_iff.mpr hd
        · exact hpre x hx'
      · have hd' : evictable d = false := Bool.eq_false_iff.mpr hd
        simp only [removeFirstEvictable, hd', Bool.false_eq_true, if_false, hrem,
          List.cons_append]

lemma tryPush_always_single (dq : Deque) (v : Item) (hexp : v.expired = false)
    (hpol : v.policy = .Always ∨ v.policy = .Single)
    (hnc : ¬(coalesce dq v).data.length < dq.capacity) :
    dq.tryPush v =
      (if ({ coalesce dq v with
              data := removeFirstEvictable (coalesce dq v).data } : Deque).data.length <
            dq.capacity then
        ({ coalesce dq v with
            data := removeFirstEvictable (coalesce dq v).data } : Deque).pushBack v
      else
        ({ coalesce dq v with data := removeFirstEvictable (coalesce dq v).data },
          { pushed := false, value := some v })) := by
  have hcap := coalesce_capacity dq v
  rcases hpol with hp | hp <;>
    simp only [Deque.tryPush, hexp, Bool.false_eq_true, if_false, hcap,
      if_neg hnc, hp]

/-- C2: pushing a non-expired value into a deque full after
Single-class coalescing: for Always/Single policy, the oldest expired
or Optional-class entry (when one exists) is evicted and the value
stored with `pushed = true`; with no evictable entry the value is
handed back (`full`); for Optional/SingleOptional policy nothing is
stored or evicted and the value is consumed (`skipped`). -/
theorem tryPush_full_policy (dq : Deque) (v : Item)
    (hexp : v.expired = false)
    (hfull : (coalesce dq v).data.length = dq.capacity) :
    ((v.policy = .Always ∨ v.policy = .Single) →
      ((∃ e ∈ (coalesce dq v).data, evictable e = true) →
        ∃ pre e post,
          (coalesce dq v).data = pre ++ e :: post ∧ evictable e = true ∧
          (∀ x ∈ pre, evictable x = false) ∧
          dq.tryPush v =
            ({ coalesce dq v with data := pre ++ post } : Deque).pushBack v ∧
          (dq.tryPush v).snd = { pushed := true, value := none }) ∧
      ((∀ e ∈ (coalesce dq v).data, evictable e = false) →
        dq.tryPush v = (coalesce dq v, { pushed := false, value := some v }))) ∧
    ((v.policy = .Optional ∨ v.policy = .SingleOptional) →
      dq.tryPush v = (coalesce dq v, { pushed := false, value := none })) := by
  have hcap := coalesce_capacity dq v
  have hnc : ¬(coalesce dq v).data.length < dq.capacity := by omega
  constructor
  · intro hpol
    constructor
    · intro he
      obtain ⟨pre, e, post, hdec, hev, hpre, hrem⟩ := removeFirstEvictable_decomp he
      have hlen : (pre ++ post).length < dq.capacity := by
        have := congrArg List.length hdec
        simp only [List.length_append, List.length_cons] at this
        simp only [List.length_append]
        omega
      refine ⟨pre, e, post, hdec, hev, hpre, ?_, ?_⟩
      · rw [tryPush_always_single dq v hexp hpol hnc, hrem]
        exact if_pos hlen
      · rw [tryPush_always_single dq v hexp hpol hnc, hrem, if_pos hlen]
        rfl
    · intro hno
      rw [tryPush_always_single dq v hexp hpol hnc, removeFirstEvictable_of_none hno]
      exact if_neg hnc
  · intro hpol
    rcases hpol with hp | hp <;>
      simp only [Deque.tryPush, hexp, Bool.false_eq_true, if_false, hcap,
        if_neg hnc, hp]

/-- Witness for `tryPush_full_policy`: an Optional value pushed into a
full one-slot deque is consumed and reported skipped. -/
theorem tryPush_full_policy_witness :
    Deque.tryPush
        { data := [{ kind := 0, policy := .Always, priority := 100,
                     expired := false, payload := 1 }],
          capacity := 1, ordered := false }
        { kind := 1, policy := .Optional, priority := 100,
          expired := false, payload := 2 } =
      ({ data := [{ kind := 0, policy := .Always, priority := 100,
                    expired := false, payload := 1 }],
          capacity := 1, ordered := false },
        { pushed := false, value := none }) := by
  have h := tryPush_full_policy
    { data := [{ kind := 0, policy := .Always, priority := 100,
                 expired := false, payload := 1 }],
      capacity := 1, ordered := false }
    { kind := 1, policy := .Optional, priority := 100,
      expired := false, payload := 2 } rfl rfl
  exact h.2 (Or.inl rfl)

lemma countKind_pushBack (dq : Deque) (v : Item) (k : Nat) :
    countKind ((dq.pushBack v).fst.data) k = countKind (dq.data ++ [v]) k := by
  simp only [Deque.pushBack]
  cases h : dq.ordered
  · simp [h]
  · simp only [h, if_pos rfl, countKind, sortByPriority]
    exact (List.perm_insertionSort _ _).countP_eq _

lemma countKind_coalesce_zero (dq : Deque) (v : Item)
    (hs : v.policy.isSingleClass = true) :
    countKind (coalesce dq v).data v.kind = 0 := by
  simp only [coalesce, hs, if_pos rfl, countKind]
  rw [List.countP_eq_zero]
  intro d hd
  have := (List.mem_filter.mp hd).2
  simp only [Item.eqKind, Bool.and_eq_true, Bool.not_eq_true'] at this
  simpa using this.1

lemma removeFirstEvictable_sublist (l : List Item) :
    (removeFirstEvictable l).Sublist l := by
  induction l with
  | nil => simp [removeFirstEvictable]
  | cons d rest ih =>
    simp only [removeFirstEvictable]
    split
    · exact (List.sublist_cons_self d rest)
    · exact ih.cons₂ d

lemma countKind_tryPush_le (dq : Deque) (v : Item) (hexp : v.expired = false) :
    countKind (dq.tryPush v).fst.data v.kind ≤
      countKind (coalesce dq v).data v.kind + 1 := by
  have hsub := (removeFirstEvictable_sublist (coalesce dq v).data).countP_le
    (fun d => d.kind == v.kind)
  have hone : List.countP (fun d => d.kind == v.kind) [v] = 1 := by
    simp [List.countP_cons]
  simp only [Deque.tryPush, hexp, Bool.false_eq_true, if_false]
  split
  · rw [countKind_pushBack]
    simp only [countKind, List.countP_append, hone]
    omega
  · split
    · split
      · rw [countKind_pushBack]
        simp only [countKind, List.countP_append, hone]
        omega
      · simp only [countKind]
        omega
    · split
      · rw [countKind_pushBack]
        simp only [countKind, List.countP_append, hone]
        omega
      · simp only [countKind]
        omega
    · exact Nat.le_succ _
    · exact Nat.le_succ _

lemma tryPush_single_step (dq : Deque) (u : Item) (hcap : 0 < dq.capacity)
    (hexp : u.expired = false) (hs : u.policy.isSingleClass = true)
    (hinv : dq.data = [] ∨ ∃ w, w.kind = u.kind ∧ dq.data = [w]) :
    (dq.tryPush u).fst.data = [u] ∧ (dq.tryPush u).fst.capacity = dq.capacity := by
  have hst : (coalesce dq u).data = [] := by
    simp only [coalesce, hs, if_pos rfl]
    rcases hinv with h | ⟨w, hw, h⟩
    · simp [h]
    · simp [h, Item.eqKind, hw]
  constructor
  · simp only [Deque.tryPush, hexp, Bool.false_eq_true, if_false, hst,
      coalesce_capacity, coalesce_ordered, Deque.pushBack]
    rw [if_pos (by simpa using hcap : ([] : List Item).length < dq.capacity)]
    cases h : dq.ordered <;> simp [h, sortByPriority]
  · simp only [Deque.tryPush, hexp, Bool.false_eq_true, if_false, hst,
      coalesce_capacity, coalesce_ordered, Deque.pushBack]
    rw [if_pos (by simpa using hcap : ([] : List Item).length < dq.capacity)]

lemma pushAll_single_aux (k : Nat) : ∀ (vs : List Item) (dq : Deque),
    0 < dq.capacity →
    (∀ u ∈ vs, u.kind = k ∧ u.expired = false ∧ u.policy.isSingleClass = true) →
    (dq.data = [] ∨ ∃ w, w.kind = k ∧ dq.data = [w]) →
    (vs = [] → pushAll dq vs = dq) ∧
    (vs ≠ [] → ∃ w, w.kind = k ∧ (pushAll dq vs).data = [w]) := by
  intro vs
  induction vs with
  | nil =>
    intro dq _ _ _
    exact ⟨fun _ => rfl, fun h => absurd rfl h⟩
  | cons u rest ih =>
    intro dq hcap hall hinv
    obtain ⟨hk, hexp, hs⟩ := hall u (by simp)
    have hstep := tryPush_single_step dq u hcap hexp hs
      (by rcases hinv with h | ⟨w, hw, h⟩
          · exact Or.inl h
          · exact Or.inr ⟨w, by rw [hw, hk], h⟩)
    have hrec := ih (dq.tryPush u).fst (by rw [hstep.2]; exact hcap)
      (fun x hx => hall x (by simp [hx]))
      (Or.inr ⟨u, hk, hstep.1⟩)
    refine ⟨fun h => absurd h (by simp), fun _ => ?_⟩
    by_cases hr : rest = []
    · subst hr
      exact ⟨u, hk, hstep.1⟩
    · exact hrec.2 hr

/-- C7: `try_push` of a non-expired Single-class value first removes
every kind-equal or expired entry, so right after the push the deque
holds at most one element of that kind; and N same-kind Single-class
pushes into a fresh deque of positive capacity, with no reader in
between, leave exactly one element of that kind. -/
theorem single_policy_coalesces (dq : Deque) (v : Item)
    (hexp : v.expired = false) (hsingle : v.policy.isSingleClass = true) :
    countKind (dq.tryPush v).fst.data v.kind ≤ 1 ∧
    (∀ (k cap : Nat) (ord : Bool) (vs : List Item), 0 < cap → vs ≠ [] →
      (∀ u ∈ vs, u.kind = k ∧ u.expired = false ∧ u.policy.isSingleClass = true) →
      countKind (pushAll { data := [], capacity := cap, ordered := ord } vs).data k
        = 1) := by
  constructor
  · have h0 := countKind_coalesce_zero dq v hsingle
    have := countKind_tryPush_le dq v hexp
    omega
  · intro k cap ord vs hcap hne hall
    obtain ⟨w, hw, hdata⟩ :=
      (pushAll_single_aux k vs { data := [], capacity := cap, ordered := ord }
        (by simpa using hcap) hall (Or.inl rfl)).2 hne
    rw [hdata]
    simp [countKind, List.countP_cons, hw]

/-- Witness for `single_policy_coalesces`: three Single-policy pushes
of kind 3 into an empty two-slot deque leave one element of kind 3. -/
theorem single_policy_coalesces_witness :
    countKind
      ((({ data := [{ kind := 3, policy := .Single, priority := 100,
                      expired := false, payload := 0 }],
           capacity := 2, ordered := false } : Deque).tryPush
        { kind := 3, policy := .Single, priority := 100,
          expired := false, payload := 1 }).fst.data) 3 ≤ 1 ∧
    countKind
      (pushAll { data := [], capacity := 2, ordered := false }
        [{ kind := 3, policy := .Single, priority := 100, expired := false,
           payload := 0 },
         { kind := 3, policy := .Single, priority := 100, expired := false,
           payload := 1 },
         { kind := 3, policy := .Single, priority := 100, expired := false,
           payload := 2 }]).data 3 = 1 := by
  have h := single_policy_coalesces
    { data := [{ kind := 3, policy := .Single, priority := 100,
                 expired := false, payload := 0 }],
      capacity := 2, ordered := false }
    { kind := 3, policy := .Single, priority := 100, expired := false,
      payload := 1 } rfl rfl
  exact ⟨h.1, h.2 3 2 false _ (by decide) (by decide) (by decide)⟩

instance : IsTotal Item (fun a b => a.priority ≤ b.priority) :=
  ⟨fun a b => Nat.le_total a.priority b.priority⟩

instance : IsTrans Item (fun a b => a.priority ≤ b.priority) :=
  ⟨fun _ _ _ h h' => Nat.le_trans h h'⟩

lemma coalesce_sublist (dq : Deque) (v : Item) :
    (coalesce dq v).data.Sublist dq.data := by
  unfold coalesce
  split
  · exact List.filter_sublist _
  · exact List.Sublist.refl _

lemma sorted_sortByPriority (l : List Item) :
    (sortByPriority l).Sorted (fun a b => a.priority ≤ b.priority) :=
  List.sorted_insertionSort _ l

/-- The priorities of the four S2 scenario items, in push order
[100, 10, 50, 100]. -/
def s2Items : List Item :=
  [{ kind := 0, policy := .Always, priority := 100, expired := false, payload := 0 },
   { kind := 0, policy := .Always, priority := 10, expired := false, payload := 1 },
   { kind := 0, policy := .Always, priority := 50, expired := false, payload := 2 },
   { kind := 0, policy := .Always, priority := 100, expired := false, payload := 3 }]

/-- C8: on an ordered deque, `try_push` keeps the stored items sorted
by ascending priority (every push re-sorts; the failure paths only drop
items, which preserves sortedness), and the S2 scenario holds: pushing
priorities [100, 10, 50, 100] into an ordered deque of capacity 8 and
then taking four values with `get` (always from the head) yields
priorities [10, 50, 100, 100]. -/
theorem ordered_deque_sorted (dq : Deque) (v : Item) (hord : dq.ordered = true)
    (hsort : dq.data.Sorted (fun a b => a.priority ≤ b.priority)) :
    (dq.tryPush v).fst.data.Sorted (fun a b => a.priority ≤ b.priority) ∧
    (getN 4 (pushAll { data := [], capacity := 8, ordered := true } s2Items)).map
      Item.priority = [10, 50, 100, 100] := by
  constructor
  · have hco : (coalesce dq v).data.Sorted (fun a b => a.priority ≤ b.priority) :=
      List.Pairwise.sublist (coalesce_sublist dq v) hsort
    have hrem : (removeFirstEvictable (coalesce dq v).data).Sorted
        (fun a b => a.priority ≤ b.priority) :=
      List.Pairwise.sublist
        (removeFirstEvictable_sublist (coalesce dq v).data) hco
    have hordc : (coalesce dq v).ordered = true := by
      rw [coalesce_ordered]
      exact hord
    simp only [Deque.tryPush]
    split
    · exact hsort
    · split
      · simp only [Deque.pushBack, hordc, if_pos rfl]
        exact sorted_sortByPriority _
      · split
        · split
          · simp only [Deque.pushBack, hordc, if_pos rfl]
            exact sorted_sortByPriority _
          · exact hrem
        · split
          · simp only [Deque.pushBack, hordc, if_pos rfl]
            exact sorted_sortByPriority _
          · exact hrem
        · exact hco
        · exact hco
  · decide

/-- Witness for `ordered_deque_sorted`: pushing a priority-20 value
onto a sorted ordered deque keeps the data sorted. -/
theorem ordered_deque_sorted_witness :
    (Deque.tryPush
        { data := [{ kind := 0, policy := .Always, priority := 10,
                     expired := false, payload := 0 },
                   { kind := 0, policy := .Always, priority := 30,
                     expired := false, payload := 1 }],
          capacity := 8, ordered := true }
        { kind := 0, policy := .Always, priority := 20, expired := false,
          payload := 2 }).fst.data.Sorted
      (fun a b => a.priority ≤ b.priority) := by
  have h := ordered_deque_sorted
    { data := [{ kind := 0, policy := .Always, priority := 10,
                 expired := false, payload := 0 },
               { kind := 0, policy := .Always, priority := 30,
                 expired := false, payload := 1 }],
      capacity := 8, ordered := true }
    { kind := 0, policy := .Always, priority := 20, expired := false,
      payload := 2 } rfl (by simp [List.Sorted])
  exact h.1

/-- C9: `recv` and `try_recv` report ChannelClosed exactly when the
sender count is zero and the queue yields no non-expired value; a
deliverable value still in the queue is returned even with zero
senders. -/
theorem recv_closed_iff (pc : PolicyChannel) :
    (recvStep pc = .closed ↔
      pc.senders = 0 ∧ (Deque.get pc.queue).fst = none) ∧
    ((tryRecv pc).fst = .error .ChannelClosed ↔
      pc.senders = 0 ∧ (Deque.get pc.queue).fst = none) ∧
    (∀ v, (Deque.get pc.queue).fst = some v →
      recvStep pc = .value v ∧ (tryRecv pc).fst = .ok v) := by
  rcases hg : Deque.get pc.queue with ⟨vo, q⟩
  cases vo with
  | some val =>
    refine ⟨?_, ?_, ?_⟩
    · simp [recvStep, hg]
    · simp [tryRecv, hg]
    · intro v hv
      simp at hv
      subst hv
      exact ⟨by simp [recvStep, hg], by simp [tryRecv, hg]⟩
  | none =>
    by_cases hs : pc.senders = 0
    · refine ⟨?_, ?_, ?_⟩
      · simp [recvStep, hg, hs]
      · simp [tryRecv, hg, hs]
      · intro v hv
        simp at hv
    · refine ⟨?_, ?_, ?_⟩
      · simp [recvStep, hg, hs]
      · simp [tryRecv, hg, hs]
      · intro v hv
        simp at hv

/-- Witness for `recv_closed_iff`: with zero senders but a value still
enqueued, both receive paths deliver the value rather than closing. -/
theorem recv_closed_iff_witness :
    recvStep
        { queue := { data := [{ kind := 0, policy := .Always, priority := 100,
                                expired := false, payload := 5 }],
                     capacity := 2, ordered := false },
          senders := 0, receivers := 1 } =
      .value { kind := 0, policy := .Always, priority := 100,
               expired := false, payload := 5 } ∧
    (tryRecv
        { queue := { data := [{ kind := 0, policy := .Always, priority := 100,
                                expired := false, payload := 5 }],
                     capacity := 2, ordered := false },
          senders := 0, receivers := 1 }).fst =
      .ok { kind := 0, policy := .Always, priority := 100,
            expired := false, payload := 5 } :=
  (recv_closed_iff
    { queue := { data := [{ kind := 0, policy := .Always, priority := 100,
                            expired := false, payload := 5 }],
                 capacity := 2, ordered := false },
      senders := 0, receivers := 1 }).2.2 _ rfl

lemma filterMap_if_eq_map {α β : Type} (p : α → Bool) (f : α → β)
    (l : List α) (h : ∀ x ∈ l, p x = true) :
    l.filterMap (fun x => if p x then some (f x) else none) = l.map f := by
  induction l with
  | nil => rfl
  | cons a rest ih =>
    have ha : p a = true := h a (by simp)
    have ih' := ih fun x hx => h x (by simp [hx])
    simp [List.filterMap_cons, ha, ih']

/-- C1: `Hub::send` delivers a message exactly to the subscribers whose
predicate matches, in subscription-list order (ascending priority, as
`register` keeps the list sorted): the first S−1 matching subscribers
receive clones and the last receives the moved original (S−1 clones in
total); with no matching subscriber nothing is sent. -/
theorem hub_send_fanout (subs : List Subscription) (message : Item)
    (hsorted : subs.Sorted (fun a b => a.priority ≤ b.priority)) :
    (subs.filter (fun c => c.condition message) = [] →
      hubSend subs message = []) ∧
    (hubSend subs message).map Delivery.sub =
      subs.filter (fun c => c.condition message) ∧
    ((hubSend subs message).map (fun d => d.sub.priority)).Sorted (· ≤ ·) ∧
    (subs.filter (fun c => c.condition message) ≠ [] →
      (hubSend subs message).map Delivery.cloned =
        List.replicate
            ((subs.filter (fun c => c.condition message)).length - 1) true
          ++ [false]) := by
  have hmsort : (subs.filter (fun c => c.condition message)).Sorted
      (fun a b => a.priority ≤ b.priority) :=
    List.Pairwise.sublist (List.filter_sublist subs) hsorted
  have hcond : ∀ s ∈ subs.filter (fun c => c.condition message),
      s.condition message = true := fun s hs => (List.mem_filter.mp hs).2
  rcases List.eq_nil_or_concat (subs.filter (fun c => c.condition message))
    with hnil | ⟨l', a, hconcat⟩
  · refine ⟨fun _ => ?_, ?_, ?_, fun hne => absurd hnil hne⟩
    · simp [hubSend, hnil]
    · simp [hubSend, hnil]
    · simp [hubSend, hnil]
  · have hconcat' : subs.filter (fun c => c.condition message) = l' ++ [a] := by
      simpa using hconcat
    have hds : hubSend subs message =
        l'.map (fun s => ⟨s, true⟩) ++ [⟨a, false⟩] := by
      have hne : (l' ++ [a]).isEmpty = false := by
        cases l' <;> rfl
      have htake : (l' ++ [a]).take ((l' ++ [a]).length - 1) = l' := by
        simp
      have hlast : (l' ++ [a]).getLast? = some a := by
        simp
      have hconda : a.condition message = true :=
        hcond a (by rw [hconcat']; simp)
      have hcondl : ∀ s ∈ l', s.condition message = true :=
        fun s hs => hcond s (by rw [hconcat']; simp [hs])
      have hfm := filterMap_if_eq_map (fun s => s.condition message)
        (fun s => (⟨s, true⟩ : Delivery)) l' hcondl
      simp only [hubSend, hconcat', hne, Bool.false_eq_true, if_false, htake,
        hlast, hfm, hconda, if_pos rfl]
      simp
    have hproj : ∀ l : List Subscription,
        (l.map (fun s => (⟨s, true⟩ : Delivery))).map Delivery.sub = l := by
      intro l
      induction l with
      | nil => rfl
      | cons x xs ih => simp [ih]
    have hmap : (hubSend subs message).map Delivery.sub =
        subs.filter (fun c => c.condition message) := by
      rw [hds, List.map_append, hproj l', hconcat']
      rfl
    refine ⟨?_, hmap, ?_, ?_⟩
    · intro h
      rw [hconcat'] at h
      simp at h
    · have hmp : (hubSend subs message).map (fun d => d.sub.priority) =
          (subs.filter (fun c => c.condition message)).map
            Subscription.priority := by
        rw [← hmap, List.map_map]
        rfl
      rw [hmp]
      exact List.Pairwise.map _ (fun _ _ h => h) hmsort
    · intro _
      have hprojc : ∀ l : List Subscription,
          (l.map (fun s => (⟨s, true⟩ : Delivery))).map Delivery.cloned =
            List.replicate l.length true := by
        intro l
        induction l with
        | nil => rfl
        | cons x xs ih => simp [ih, List.replicate_succ]
      rw [hds, List.map_append, hprojc l', hconcat']
      simp


/-- Witness for `hub_send_fanout`: two always-matching subscribers with
priorities 10 and 20 — the first delivery is a clone, the last is the
moved original. -/
theorem hub_send_fanout_witness :
    (hubSend [{ name := "a", priority := 10, condition := fun _ => true },
              { name := "b", priority := 20, condition := fun _ => true }]
        { kind := 0, policy := .Always, priority := 100, expired := false,
          payload := 0 }).map Delivery.cloned = [true, false] := by
  have h := hub_send_fanout
    [{ name := "a", priority := 10, condition := fun _ => true },
     { name := "b", priority := 20, condition := fun _ => true }]
    { kind := 0, policy := .Always, priority := 100, expired := false,
      payload := 0 }
    (by simp [List.sorted_cons])
  have h4 := h.2.2.2 (List.cons_ne_nil _ _)
  simpa using h4

end Roboplc
